import Mathlib

/-!
Verification development for the `mp3m4a-to-text` repository.

The development shallowly embeds the two core Python modules:

* `src/mp3_to_text.py` — the streaming recorder: the real-time hallucination
  filter `is_hallucination`, the time formatter `format_time`, and the
  per-segment loop of `transcribe_to_files` (segment counting, progress /
  milestone bookkeeping, and the three sinks).
* `src/fix_hallucination.py` — the offline cleaner: `similarity`,
  `detect_repeated_content`, `detect_short_repeats`, `clean_repeated_words`,
  `is_likely_hallucination`, `clean_entries`, `parse_time_md_file`,
  `write_cleaned_file` and `main`.

Python strings are modelled as `List Char`, Python floats as `ℚ` (all the
float arithmetic performed by the embedded code is exact on the rationals),
and the file system as an association list from paths to file contents.
Python regular expressions are modelled by direct implementations of the
backtracking semantics of the concrete patterns appearing in the source.
While-loops over indices are modelled by fuel recursion where the fuel given
at the call site is a proven-sufficient bound (each iteration advances the
index by at least one).
-/

set_option maxHeartbeats 1600000

abbrev Str := List Char

/-- Characters treated as whitespace by Python's `str.strip`, `str.split()`
and the regex class `\s` (restricted to the ASCII whitespace characters;
the repository's data never contains non-ASCII whitespace). -/
def pySpace (c : Char) : Bool :=
  c = ' ' || c = '\t' || c = '\n' || c = '\r' || c = '\x0b' || c = '\x0c'

/-- Python `str.strip()`: remove leading and trailing whitespace. -/
def pyStrip (s : Str) : Str :=
  ((s.dropWhile pySpace).reverse.dropWhile pySpace).reverse

/-- Python's substring test `sub in s`. -/
def strContains (s sub : Str) : Bool :=
  match s with
  | [] => sub.isEmpty
  | _ :: t => sub.isPrefixOf s || strContains t sub

/-- Python `str.split()` (split on whitespace runs, dropping empty pieces). -/
def pyWords (s : Str) : List Str :=
  (s.splitOnP pySpace).filter (fun w => !w.isEmpty)

/-- Python `' '.join(pieces)`. -/
def joinSpace : List Str → Str
  | [] => []
  | [x] => x
  | x :: rest => x ++ ' ' :: joinSpace rest

/-- Python `sep.join(pieces)` with empty separator: concatenation. -/
def joinEmpty (l : List Str) : Str := l.flatten

/-- The concatenation of `n` copies of `u` (the text matched by a
back-referenced group repeated `n` times). -/
def repList (u : Str) (n : ℕ) : Str := (List.replicate n u).flatten

/-- Python float `//` (floor division); both operands rational. -/
def pyFloorDiv (a b : ℚ) : ℤ := ⌊a / b⌋

/-- Python float `%` with positive divisor: `a - b * (a // b)`. -/
def pyModQ (a b : ℚ) : ℚ := a - b * ⌊a / b⌋

/-- Python `int()` on a float: truncation toward zero. -/
def pyIntQ (q : ℚ) : ℤ := if 0 ≤ q then ⌊q⌋ else -⌊-q⌋

/-! ## `src/mp3_to_text.py` -/

/-- `MP3ToTextConverter.HALLUCINATION_PATTERNS` (mp3_to_text.py lines 191-198). -/
def HALLUCINATION_PATTERNS : List Str :=
  [ "한글자막".data, "자막 제작".data, "자막 by".data, "수고하셨습니다".data,
    "시청해주셔서 감사합니다".data, "구독과 좋아요".data,
    "영상 편집".data, "제작 지원".data, "번역 :".data, "싱크 :".data, "배급 :".data,
    "한글 자막".data, "by 한효정".data, "한글자막 by 한효정".data, "아멘".data,
    "이 시각 세계였습니다".data, "끝 끝".data, "다음 영상에서 만나요".data,
    "다음 주에 만나요".data, "다음 시간에 뵙겠습니다".data ]

/-- `MP3ToTextConverter.is_hallucination` (mp3_to_text.py lines 200-214):
empty/whitespace-only text, or text longer than 10 characters with fewer
than 5 distinct characters, or text containing a known filler phrase. -/
def is_hallucination (text : Str) : Bool :=
  if (pyStrip text).length = 0 then true
  else if text.length > 10 && text.dedup.length < 5 then true
  else HALLUCINATION_PATTERNS.any (fun p => strContains text p)

/-- Python `f"{n:02d}"` for a natural number. -/
def pad2 (n : ℕ) : String := if n < 10 then "0" ++ toString n else toString n

/-- `format_time` (mp3_to_text.py lines 107-116). -/
def format_time (seconds : ℚ) : String :=
  if seconds < 0 then "--:--"
  else
    let hours : ℕ := (pyFloorDiv seconds 3600).toNat
    let minutes : ℕ := (pyFloorDiv (pyModQ seconds 3600) 60).toNat
    let secs : ℕ := (pyIntQ (pyModQ seconds 60)).toNat
    if hours > 0 then toString hours ++ ":" ++ pad2 minutes ++ ":" ++ pad2 secs
    else pad2 minutes ++ ":" ++ pad2 secs

/-- One transcription segment produced by the engine.  The source field
`segment.end` is called `stop` here because `end` is a Lean keyword. -/
structure Segment where
  start : ℚ
  stop : ℚ
  text : Str
deriving DecidableEq, Repr

/-- `range(10, 100, 10)` from the milestone loop of `transcribe_to_files`. -/
def milestonesList : List ℕ := [10, 20, 30, 40, 50, 60, 70, 80, 90]

/-- The observable per-session state of `transcribe_to_files`
(mp3_to_text.py lines 677-739): accepted-segment count, the set of already
logged milestones (`logged_progress`), the milestone checkpoint rows written
to the run log, the rows written to the time-indexed sink and the text
chunks written to the full-text sink. -/
structure RecState where
  segmentCount : ℕ
  logged : List ℕ
  logRows : List (ℕ × ℚ)
  timeRows : List (Str × Str)
  fullChunks : List Str
deriving DecidableEq, Repr

def initRecState : RecState := ⟨0, [], [], [], []⟩

/-- One round of the milestone loop
`for milestone in range(10, 100, 10): ...` for milestone `m`, where `p` is
`progress_int` and `e` is the current `segment.end`. -/
def msStep (p : ℤ) (e : ℚ) (acc : List ℕ × List (ℕ × ℚ)) (m : ℕ) :
    List ℕ × List (ℕ × ℚ) :=
  if decide ((m : ℤ) ≤ p) && !acc.1.contains m then (acc.1 ++ [m], acc.2 ++ [(m, e)])
  else acc

/-- `text_chunk[-1] in '.!?'`. -/
def endsPunct (t : Str) : Bool :=
  match t.getLast? with
  | some c => c = '.' || c = '!' || c = '?'
  | none => false

/-- Processing of one engine segment: the hallucination filter applied by
`_transcribe_generator` (mp3_to_text.py line 312: a rejected segment is
skipped by `continue` and never yielded), followed by the body of the
`for segment, ... in self._transcribe_generator(...)` loop of
`transcribe_to_files`: increment `segment_count`; when the total duration is
positive compute `progress_int` and run the milestone loop; append the text
chunk to the full-text sink (newline after terminal punctuation, otherwise a
trailing space; empty chunks are skipped); append one row to the
time-indexed sink. -/
def recStep (dur : ℚ) (st : RecState) (seg : Segment) : RecState :=
  if is_hallucination seg.text then st
  else
    let st1 := { st with segmentCount := st.segmentCount + 1 }
    let st2 :=
      if 0 < dur then
        let p := pyIntQ (seg.stop / dur * 100)
        let lr := milestonesList.foldl (msStep p seg.stop) (st1.logged, st1.logRows)
        { st1 with logged := lr.1, logRows := lr.2 }
      else st1
    let t := pyStrip seg.text
    let st3 :=
      if t.length ≠ 0 then
        { st2 with fullChunks :=
            st2.fullChunks ++ [t ++ (if endsPunct t then ['\n'] else [' '])] }
      else st2
    { st3 with timeRows := st3.timeRows ++ [((format_time seg.start).data, pyStrip seg.text)] }

/-- The full per-segment loop of a session of `transcribe_to_files` over the
engine's segment sequence, with known total duration `dur`. -/
def runRecorder (segs : List Segment) (dur : ℚ) : RecState :=
  segs.foldl (recStep dur) initRecState

/-- Modelled from the spec (for comparison with the source behaviour):
the recorder as claim C1 describes it — a segment rejected by the filter is
written to no sink and not counted, but the progress/ETA/milestone
computation still runs, using the rejected segment's `end` as the current
audio position. -/
def recStepClaimed (dur : ℚ) (st : RecState) (seg : Segment) : RecState :=
  let st2 :=
    if 0 < dur then
      let p := pyIntQ (seg.stop / dur * 100)
      let lr := milestonesList.foldl (msStep p seg.stop) (st.logged, st.logRows)
      { st with logged := lr.1, logRows := lr.2 }
    else st
  if is_hallucination seg.text then st2
  else
    let st3 := { st2 with segmentCount := st2.segmentCount + 1 }
    let t := pyStrip seg.text
    let st4 :=
      if t.length ≠ 0 then
        { st3 with fullChunks :=
            st3.fullChunks ++ [t ++ (if endsPunct t then ['\n'] else [' '])] }
      else st3
    { st4 with timeRows := st4.timeRows ++ [((format_time seg.start).data, pyStrip seg.text)] }

/-- Modelled from the spec: the session loop under claim C1's reading. -/
def runRecorderClaimed (segs : List Segment) (dur : ℚ) : RecState :=
  segs.foldl (recStepClaimed dur) initRecState

/-! ## `src/fix_hallucination.py` -/

/-- `similarity` (fix_hallucination.py lines 55-66): Jaccard similarity of the
character sets, `0.0` when either string is empty.  The exact rational value
`inter / union` is built with `mkRat` (the kernel-reducible constructor;
`Rat.mkRat_eq_div` equates it with division). -/
def similarity (s1 s2 : Str) : ℚ :=
  if s1.isEmpty || s2.isEmpty then 0
  else
    let inter := (s1.dedup.filter (fun c => c ∈ s2)).length
    let union := (s1 ++ s2).dedup.length
    if union > 0 then mkRat inter union else 0

/-- The extension condition of the inner `while` of `detect_repeated_content`
(line 40): the next stripped line is identical to the current content or has
Jaccard similarity above `0.8` with it. -/
def nearDup (cur : Str) (line : Str) : Bool :=
  pyStrip line == cur || decide (similarity cur (pyStrip line) > mkRat 4 5)

/-- Length of the run of consecutive near-duplicate lines (the inner `while`
loop of `detect_repeated_content`, lines 37-44). -/
def runLen (cur : Str) (rest : List Str) : ℕ :=
  (rest.takeWhile (nearDup cur)).length

/-- The outer `while` loop of `detect_repeated_content`
(fix_hallucination.py lines 26-50), as fuel recursion on the scan index
(each iteration advances the index by at least one, so fuel
`lines.length` is sufficient from index 0). -/
def detectAux (lines : List Str) (thr : ℕ) : ℕ → ℕ → List (ℕ × ℕ × Str)
  | 0, _ => []
  | fuel+1, i =>
    if i < lines.length then
      let cur := pyStrip (lines.getD i [])
      if cur.isEmpty || cur.length < 5 then detectAux lines thr fuel (i+1)
      else
        let cnt := 1 + runLen cur (lines.drop (i+1))
        if thr ≤ cnt then (i, i + cnt - 1, cur) :: detectAux lines thr fuel (i + cnt)
        else detectAux lines thr fuel (i+1)
    else []

/-- `detect_repeated_content` (fix_hallucination.py lines 12-52). -/
def detect_repeated_content (lines : List Str) (thr : ℕ) : List (ℕ × ℕ × Str) :=
  detectAux lines thr lines.length 0

/-- The skip-index set built from the detected sections
(fix_hallucination.py lines 221-226): all indices of a section except the
first. -/
def skipIdx (secs : List (ℕ × ℕ × Str)) : List ℕ :=
  (secs.map (fun s => List.range' (s.1 + 1) (s.2.1 - s.1))).flatten

/-- Maximal number of consecutive copies of the (nonempty) unit `u` at the
front of `s`: the greedy repeat count of a back-referenced group.  The set
of valid counts is downward closed and a run of `k` copies needs
`k * u.length ≤ s.length`, so the maximum over that range is the greedy
count. -/
def leadCopies (u : Str) (s : Str) : ℕ :=
  ((List.range (s.length / u.length + 1)).filter
    (fun k => (repList u k).isPrefixOf s)).foldr max 0

/-- One match attempt of `(.{2,15}?)\1{need-1,}` at the current position:
the lazy group tries unit lengths 2..15 in increasing order (each unit
character matched by `.`, hence not a newline); the greedy counted repeat
then takes the maximal number of copies, succeeding when at least
`need - 1` follow.  Returns the unit and the total matched length. -/
def findUnit (cs : Str) (need : ℕ) : Option (Str × ℕ) :=
  (List.range' 2 14).findSome? fun L =>
    if L ≤ cs.length && (cs.take L).all (fun c => c ≠ '\n') then
      let u := cs.take L
      let m := leadCopies u (cs.drop L)
      if need - 1 ≤ m then some (u, L * (1 + m)) else none
    else none

/-- `re.findall` scanning for `detect_short_repeats`: at each position try a
match; on success record the unit and resume after the match, otherwise
advance one character (fuel recursion; every step consumes at least one
character, so fuel `cs.length` is sufficient). -/
def findRepeatsF (need : ℕ) : ℕ → Str → List Str
  | 0, _ => []
  | _+1, [] => []
  | fuel+1, cs@(_ :: t) =>
    match findUnit cs need with
    | some (u, k) => u :: findRepeatsF need fuel (cs.drop k)
    | none => findRepeatsF need fuel t

/-- `detect_short_repeats` (fix_hallucination.py lines 69-82):
`re.findall(r'(.{2,15}?)\1{threshold-1,}', content)` followed by
`list(set(...))`.  Python's set iteration order is unspecified; the model
fixes the canonical order produced by `List.dedup`. -/
def detect_short_repeats (content : Str) (threshold : ℕ) : List Str :=
  (findRepeatsF threshold content.length content).dedup

/-- One match attempt of `(.{2,10}?)\1{2,}` at the current position (the
character-level pass of `clean_repeated_words`, line 160). -/
def subUnit (cs : Str) : Option (Str × ℕ) :=
  (List.range' 2 9).findSome? fun L =>
    if L ≤ cs.length && (cs.take L).all (fun c => c ≠ '\n') then
      let u := cs.take L
      let m := leadCopies u (cs.drop L)
      if 2 ≤ m then some (u, L * (1 + m)) else none
    else none

/-- `re.sub(r'(.{2,10}?)\1{2,}', r'\1', ...)` scanning: each match is
replaced by a single copy of its unit, non-matching characters are copied
through (fuel recursion as above). -/
def subRepeatsF : ℕ → Str → Str
  | 0, cs => cs
  | _+1, [] => []
  | fuel+1, cs@(c :: t) =>
    match subUnit cs with
    | some (u, k) => u ++ subRepeatsF fuel (cs.drop k)
    | none => c :: subRepeatsF fuel t

/-- `takeWhile`-count of leading words equal to `w` (the inner `while` of
`clean_repeated_words`, lines 145-147). -/
def countLeadEq (w : Str) (rest : List Str) : ℕ :=
  (rest.takeWhile (fun x => x == w)).length

/-- The word-level `while` loop of `clean_repeated_words` (lines 139-154):
a run of at least 3 identical consecutive words is kept once; shorter runs
are copied through (fuel recursion; each step consumes at least one word). -/
def collapseWordsF : ℕ → List Str → List Str
  | 0, ws => ws
  | _+1, [] => []
  | fuel+1, w :: rest =>
    let k := countLeadEq w rest
    if 3 ≤ k + 1 then w :: collapseWordsF fuel (rest.drop k)
    else w :: collapseWordsF fuel rest

/-- `clean_repeated_words` (fix_hallucination.py lines 129-162). -/
def clean_repeated_words (text : Str) : Str :=
  let ws := pyWords text
  let collapsed := collapseWordsF ws.length ws
  let result := joinSpace collapsed
  pyStrip (subRepeatsF result.length result)

/-- The count of the most frequent character
(`Counter(content).most_common(1)[0][1]`, line 176). -/
def maxCharCount (s : Str) : ℕ :=
  (s.dedup.map (fun c => s.count c)).foldr max 0

/-- `re.match(r'^(.{1,3})\1{5,}', content)` as a Boolean: some unit of 1-3
non-newline characters occurs at least 6 times (the group plus 5 repeats) at
the start. -/
def startRepeat13 (content : Str) : Bool :=
  (List.range' 1 3).any fun L =>
    L ≤ content.length && (content.take L).all (fun c => c ≠ '\n') &&
      (repList (content.take L) 6).isPrefixOf content

/-- `re.match(r'^[ㄱ-ㅎㅏ-ㅣ]+$', content)` as a Boolean: nonempty and all
characters in the Korean compatibility-jamo ranges U+3131..U+314E and
U+314F..U+3163. -/
def jamoOnly (content : Str) : Bool :=
  !content.isEmpty && content.all (fun c =>
    (0x3131 ≤ c.toNat && c.toNat ≤ 0x314E) || (0x314F ≤ c.toNat && c.toNat ≤ 0x3163))

/-- `re.match(r'^([a-zA-Z])\1{10,}', content)` as a Boolean: an ASCII letter
repeated at least 11 times at the start. -/
def letterRepeat11 (content : Str) : Bool :=
  match content with
  | c :: _ =>
    (('a' ≤ c && c ≤ 'z') || ('A' ≤ c && c ≤ 'Z'))
      && (List.replicate 11 c).isPrefixOf content
  | [] => false

/-- `is_likely_hallucination` (fix_hallucination.py lines 165-191). -/
def is_likely_hallucination (content : Str) : Bool :=
  if content.length < 2 then true
  else if content.length > 10
      && decide (mkRat (maxCharCount content) content.length > mkRat 4 5) then true
  else startRepeat13 content || jamoOnly content || letterRepeat11 content

/-- One parsed row of a `*_time.md` table (fix_hallucination.py
lines 120-124). -/
structure Entry where
  time : Str
  content : Str
  original_line : Str
deriving DecidableEq, Repr

/-- Worker for Python `s.split(pat)` with nonempty `pat`: non-overlapping
left-to-right scan, `acc` holding the current piece reversed (fuel
recursion; each step consumes at least one character of `s`). -/
def pySplitF (pat : Str) : ℕ → Str → Str → List Str
  | 0, acc, s => [acc.reverse ++ s]
  | fuel+1, acc, s =>
    if pat.isPrefixOf s && !pat.isEmpty then
      acc.reverse :: pySplitF pat fuel [] (s.drop pat.length)
    else
      match s with
      | [] => [acc.reverse]
      | c :: t => pySplitF pat fuel (c :: acc) t

/-- Python `s.split(pat)`. -/
def pySplit (s pat : Str) : List Str := pySplitF pat (s.length + 1) [] s

/-- Worker for Python `s.replace(pat, rep)`: non-overlapping left-to-right
scan (fuel recursion as above). -/
def pyReplaceF (pat rep : Str) : ℕ → Str → Str
  | 0, s => s
  | fuel+1, s =>
    if pat.isPrefixOf s && !pat.isEmpty then
      rep ++ pyReplaceF pat rep fuel (s.drop pat.length)
    else
      match s with
      | [] => []
      | c :: t => c :: pyReplaceF pat rep fuel t

/-- Python `s.replace(pat, rep)`. -/
def pyReplace (s pat rep : Str) : Str := pyReplaceF pat rep (s.length + 1) s

/-- The short-pattern reconstruction loop inside `clean_entries`
(fix_hallucination.py lines 244-248): for each detected pattern occurring in
the content, if splitting on it yields more than 2 parts, rebuild the
content as the pattern followed by the stripped remainder with all further
occurrences removed. -/
def applyShortPats (pats : List Str) (c0 : Str) : Str :=
  pats.foldl (fun c pat =>
    if strContains c pat then
      let parts := pySplit c pat
      if parts.length > 2 then
        pat ++ pyStrip (pyReplace (joinEmpty (parts.drop 1)) pat [])
      else c
    else c) c0

/-- `clean_entries` (fix_hallucination.py lines 194-271): run collapse of
consecutive near-duplicate sections (first entry kept), then per surviving
entry the hallucination heuristic on the *original* content, the
short-pattern reconstruction, `clean_repeated_words`, and the length floor;
surviving entries keep their time and original line, with the cleaned
content. -/
def clean_entries (entries : List Entry) : List Entry :=
  if entries.isEmpty then entries
  else
    let contents := entries.map (·.content)
    let repeated_sections := detect_repeated_content contents 3
    let skip := skipIdx repeated_sections
    let full_content := joinSpace contents
    let short_patterns := detect_short_repeats full_content 5
    entries.enum.filterMap fun ie =>
      if ie.1 ∈ skip then none
      else
        let content := ie.2.content
        if is_likely_hallucination content then none
        else
          let c1 := applyShortPats short_patterns content
          let c2 := clean_repeated_words c1
          if (pyStrip c2).length < 3 then none
          else some ⟨ie.2.time, c2, ie.2.original_line⟩

/-! ### File system model, `write_cleaned_file`, `parse_time_md_file`, `main` -/

/-- The file system: an association list from paths to file contents; a
write shadows earlier bindings. -/
abbrev FileSys := List (Str × Str)

def fsRead (fs : FileSys) (p : Str) : Option Str :=
  (fs.find? (fun pc => pc.1 == p)).map (·.2)

def fsWrite (fs : FileSys) (p c : Str) : FileSys := (p, c) :: fs

/-- `str(file_path).replace('.md', '.backup.md')` (fix_hallucination.py
line 280). -/
def backupPath (p : Str) : Str := pyReplace p ".md".data ".backup.md".data

/-- The table row written for one entry:
`f"| {entry['time']} | {entry['content']} |\n"` (line 293). -/
def rowText (e : Entry) : Str :=
  "| ".data ++ e.time ++ " | ".data ++ e.content ++ " |\n".data

/-- The full rewritten file: the header lines followed by one row per
cleaned entry (fix_hallucination.py lines 287-293). -/
def cleanedFileText (header : List Str) (cleaned : List Entry) : Str :=
  header.flatten ++ (cleaned.map rowText).flatten

/-- `write_cleaned_file` (fix_hallucination.py lines 274-295) acting on the
modelled file system.  With `backup` set, the backup file is opened for
writing first (`open(backup_path, 'w')` truncates it), then the original is
read and its content written to the backup; finally the original path is
rewritten.  The truncate-then-read order matters when the backup path
aliases the original path. -/
def write_cleaned_file (fs : FileSys) (path : Str) (header : List Str)
    (cleaned : List Entry) (backup : Bool) : FileSys :=
  let fs1 :=
    if backup then
      let bp := backupPath path
      let fsT := fsWrite fs bp []
      let orig := (fsRead fsT path).getD []
      fsWrite fsT bp orig
    else fs
  fsWrite fs1 path (cleanedFileText header cleaned)

/-- Python `f.readlines()`: split into lines, each keeping its trailing
newline (fuel recursion; each step consumes at least one character). -/
def readLinesF : ℕ → Str → List Str
  | 0, s => [s]
  | _+1, [] => []
  | fuel+1, s =>
    let line := s.takeWhile (fun c => c ≠ '\n')
    match s.drop line.length with
    | _ :: t => (line ++ ['\n']) :: readLinesF fuel t
    | [] => [line]

def pyReadLines (s : Str) : List Str := readLinesF s.length s

/-- `re.match(r'\|\s*\d{2}:\d{2}', line)` as a Boolean (fix_hallucination.py
line 99). -/
def rowStartMatch (l : Str) : Bool :=
  match l with
  | '|' :: rest =>
    match rest.dropWhile pySpace with
    | a :: b :: ':' :: c :: d :: _ => a.isDigit && b.isDigit && c.isDigit && d.isDigit
    | _ => false
  | _ => false

/-- The header-search loop of `parse_time_md_file` (fix_hallucination.py
lines 96-106): find the first line that starts the table (literal header
marker or a timestamp row), confirmed by a `|---|---|` separator on the
previous line (table starts there) or the next line (table starts two lines
later).  Fuel recursion over the index. -/
def findTableStart (lines : List Str) : ℕ → ℕ → Option ℕ
  | 0, _ => none
  | fuel+1, i =>
    if i < lines.length then
      let line := lines.getD i []
      if "| 시간 | 내용 |".data.isPrefixOf (pyStrip line) || rowStartMatch line then
        if i > 0 && strContains (lines.getD (i-1) []) "|---|---|".data then some i
        else if i < lines.length - 1
            && strContains (lines.getD (i+1) []) "|---|---|".data then some (i + 2)
        else findTableStart lines fuel (i+1)
      else findTableStart lines fuel (i+1)
    else none

/-- The trailing-part test of the row regex `\s*\|` after the lazy content
group: from this position, a (possibly empty) whitespace run followed by
`|`. -/
def closesRow (after : Str) : Bool :=
  match after.dropWhile pySpace with
  | '|' :: _ => true
  | _ => false

/-- The content part `\s*(.+?)\s*\|` of the row regex applied to the text
after the second `|`: the greedy leading `\s*` tries the longest whitespace
run first and backtracks downward; for each such split the lazy `(.+?)`
grows a nonempty, newline-free content from length 1 upward until the rest
of the line closes with `\s*\|`.  Returns the *stripped* group. -/
def searchContent (region : Str) : Option Str :=
  let maxW := (region.takeWhile pySpace).length
  ((List.range (maxW + 1)).map (fun t => maxW - t)).findSome? fun w =>
    (List.range' 1 (region.length - w)).findSome? fun k =>
      let content := (region.drop w).take k
      if content.all (fun c => c ≠ '\n') && closesRow (region.drop (w + k)) then
        some (pyStrip content)
      else none

/-- `re.match(r'\|\s*(\d{2}:\d{2})\s*\|\s*(.+?)\s*\|', line)` with the
groups extracted and the content stripped (fix_hallucination.py
lines 116-119). -/
def parseRow (line : Str) : Option (Str × Str) :=
  match line with
  | '|' :: rest =>
    match rest.dropWhile pySpace with
    | a :: b :: ':' :: c :: d :: r2 =>
      if a.isDigit && b.isDigit && c.isDigit && d.isDigit then
        match (r2.dropWhile pySpace) with
        | '|' :: region => (searchContent region).map (fun ct => ([a, b, ':', c, d], ct))
        | _ => none
      else none
    | _ => none
  | _ => none

/-- `parse_time_md_file` (fix_hallucination.py lines 85-126) on a file's
content: header lines and parsed entries. -/
def parse_time_md_file (content : Str) : List Str × List Entry :=
  let lines := pyReadLines content
  match findTableStart lines lines.length 0 with
  | none => (lines, [])
  | some ts =>
    (lines.take ts,
     (lines.drop ts).filterMap fun l =>
       (parseRow l).map (fun tc => ⟨tc.1, tc.2, l⟩))

/-- `main` (fix_hallucination.py lines 298-342) on the modelled file system:
returns the exit status and the resulting file system.  A missing file or a
file with no parseable entries exits 1 without writing; otherwise the file
is rewritten (with optional backup) only when the cleaning removed at least
one entry. -/
def mainModel (fs : FileSys) (path : Str) (no_backup : Bool) : ℤ × FileSys :=
  match fsRead fs path with
  | none => (1, fs)
  | some content =>
    let he := parse_time_md_file content
    if he.2.isEmpty then (1, fs)
    else
      let cleaned := clean_entries he.2
      if (he.2.length : ℤ) - (cleaned.length : ℤ) > 0 then
        (0, write_cleaned_file fs path he.1 cleaned (!no_backup))
      else (0, fs)

/-! ## Spec-side definitions used by the claims -/

/-- The hallucination predicate as the spec states it (claim C5): empty or
all-whitespace, or more than 10 characters with fewer than 5 distinct ones,
or containing a configured filler phrase as a literal substring. -/
def hallucinationSpec (text : Str) : Prop :=
  (∀ c ∈ text, pySpace c = true)
  ∨ (text.length > 10 ∧ text.dedup.length < 5)
  ∨ (∃ p ∈ HALLUCINATION_PATTERNS, strContains text p = true)

instance (text : Str) : Decidable (hallucinationSpec text) := by
  unfold hallucinationSpec; infer_instance

/-! ## Helper lemmas -/

lemma pyStrip_eq_nil_iff (s : Str) : pyStrip s = [] ↔ ∀ c ∈ s, pySpace c = true := by
  unfold pyStrip
  rw [List.reverse_eq_nil_iff, List.dropWhile_eq_nil_iff]
  constructor
  · intro h c hc
    rcases (List.mem_append.1 (by rw [List.takeWhile_append_dropWhile] at *; exact hc :
        c ∈ s.takeWhile pySpace ++ s.dropWhile pySpace)) with h1 | h2
    · exact List.mem_takeWhile_imp h1
    · exact h c (List.mem_reverse.2 h2)
  · intro h c hc
    exact h c ((List.dropWhile_sublist pySpace).subset (List.mem_reverse.1 hc))

lemma pyModQ_eq_mul_fract (a b : ℚ) (hb : b ≠ 0) :
    pyModQ a b = b * Int.fract (a / b) := by
  unfold pyModQ
  rw [Int.fract]
  field_simp

lemma pyModQ_nonneg (a b : ℚ) (hb : 0 < b) : 0 ≤ pyModQ a b := by
  rw [pyModQ_eq_mul_fract a b hb.ne.symm]
  exact mul_nonneg hb.le (Int.fract_nonneg _)

lemma pyModQ_lt (a b : ℚ) (hb : 0 < b) : pyModQ a b < b := by
  rw [pyModQ_eq_mul_fract a b hb.ne.symm]
  nlinarith [Int.fract_lt_one (a / b)]

lemma pyIntQ_of_nonneg {q : ℚ} (h : 0 ≤ q) : pyIntQ q = ⌊q⌋ := by
  unfold pyIntQ; rw [if_pos h]

/-! ## Claim C7: `format_time` -/

/-- **C7.** `format_time` maps every negative input to the fixed marker
`"--:--"`; every non-negative input below one hour to a minutes-and-seconds
rendering `M:SS` (minutes `⌊s/60⌋ < 60`, seconds `⌊s mod 60⌋ < 60`); and
every input of one hour or more to an `H:MM:SS` rendering with positive
hours and two-digit minutes and seconds (`pad2` renders every value below
60 with exactly two digits). -/
theorem C7_format_time (s : ℚ) :
    (s < 0 → format_time s = "--:--")
    ∧ (0 ≤ s → s < 3600 →
        format_time s = pad2 (⌊s / 60⌋).toNat ++ ":" ++ pad2 (⌊pyModQ s 60⌋).toNat
        ∧ (⌊s / 60⌋).toNat < 60 ∧ (⌊pyModQ s 60⌋).toNat < 60)
    ∧ (3600 ≤ s →
        format_time s = toString (⌊s / 3600⌋).toNat ++ ":"
            ++ pad2 (⌊pyModQ s 3600 / 60⌋).toNat ++ ":" ++ pad2 (⌊pyModQ s 60⌋).toNat
        ∧ 0 < (⌊s / 3600⌋).toNat
        ∧ (⌊pyModQ s 3600 / 60⌋).toNat < 60 ∧ (⌊pyModQ s 60⌋).toNat < 60)
    ∧ (∀ n : ℕ, n < 60 → (pad2 n).length = 2) := by
  refine ⟨fun hneg => ?_, fun h0 h36 => ?_, fun h36 => ?_, by decide⟩
  · unfold format_time; rw [if_pos hneg]
  · have hns : ¬ s < 0 := not_lt.2 h0
    have hfl0 : ⌊s / 3600⌋ = 0 := by
      rw [Int.floor_eq_zero_iff]
      constructor
      · positivity
      · rw [div_lt_one (by norm_num)]; simpa using h36
    have hmod : pyModQ s 3600 = s := by
      unfold pyModQ; rw [hfl0]; push_cast; ring
    have hm60 : ⌊s / 60⌋ < 60 := by
      rw [Int.floor_lt]
      rw [div_lt_iff₀ (by norm_num : (0:ℚ) < 60)]
      calc s < 3600 := h36
        _ = 60 * 60 := by norm_num
    have hsec : ⌊pyModQ s 60⌋ < 60 := by
      rw [Int.floor_lt]
      calc pyModQ s 60 < 60 := pyModQ_lt s 60 (by norm_num)
        _ ≤ ((60:ℤ) : ℚ) := by norm_num
    have hsec0 : (0:ℤ) ≤ ⌊pyModQ s 60⌋ := Int.floor_nonneg.2 (pyModQ_nonneg s 60 (by norm_num))
    have hmin0 : (0:ℤ) ≤ ⌊s / 60⌋ := Int.floor_nonneg.2 (by positivity)
    refine ⟨?_, ?_, ?_⟩
    · unfold format_time
      rw [if_neg hns]
      simp only [pyFloorDiv, hfl0, hmod, pyIntQ_of_nonneg (pyModQ_nonneg s 60 (by norm_num))]
      norm_num
    · omega
    · omega
  · have h0 : (0:ℚ) ≤ s := le_trans (by norm_num) h36
    have hns : ¬ s < 0 := not_lt.2 h0
    have hfl1 : (1:ℤ) ≤ ⌊s / 3600⌋ := by
      rw [Int.le_floor]
      push_cast
      rw [le_div_iff₀ (by norm_num : (0:ℚ) < 3600)]
      linarith
    have hmodlt : pyModQ s 3600 < 3600 := pyModQ_lt s 3600 (by norm_num)
    have hmod0 : 0 ≤ pyModQ s 3600 := pyModQ_nonneg s 3600 (by norm_num)
    have hm60 : ⌊pyModQ s 3600 / 60⌋ < 60 := by
      rw [Int.floor_lt]
      rw [div_lt_iff₀ (by norm_num : (0:ℚ) < 60)]
      calc pyModQ s 3600 < 3600 := hmodlt
        _ = ((60:ℤ):ℚ) * 60 := by norm_num
    have hmin0 : (0:ℤ) ≤ ⌊pyModQ s 3600 / 60⌋ := Int.floor_nonneg.2 (by positivity)
    have hsec : ⌊pyModQ s 60⌋ < 60 := by
      rw [Int.floor_lt]
      calc pyModQ s 60 < 60 := pyModQ_lt s 60 (by norm_num)
        _ ≤ ((60:ℤ) : ℚ) := by norm_num
    have hsec0 : (0:ℤ) ≤ ⌊pyModQ s 60⌋ := Int.floor_nonneg.2 (pyModQ_nonneg s 60 (by norm_num))
    refine ⟨?_, by omega, by omega, by omega⟩
    unfold format_time
    rw [if_neg hns]
    simp only [pyFloorDiv, pyIntQ_of_nonneg (pyModQ_nonneg s 60 (by norm_num))]
    rw [if_pos (by omega)]

/-- Witness for C7 at the concrete inputs `-1`, `125` and `3725` seconds. -/
theorem C7_format_time_witness :
    format_time (-1) = "--:--" ∧ format_time 125 = "02:05" ∧ format_time 3725 = "1:02:05" := by
  refine ⟨(C7_format_time (-1)).1 (by norm_num), ?_, ?_⟩
  · have h := ((C7_format_time 125).2.1 (by norm_num) (by norm_num)).1
    rw [h]
    norm_num [pyModQ]
    decide
  · have h := ((C7_format_time 3725).2.2.1 (by norm_num)).1
    rw [h]
    norm_num [pyModQ]
    decide

/-! ## Claim C5: `is_hallucination` -/

/-- **C5.** `is_hallucination` returns `true` exactly when the text is empty
or all-whitespace, or longer than 10 characters with fewer than 5 distinct
characters, or contains a configured filler phrase as a literal substring;
in particular a 20-character string of repeated dots is rejected, and a text
containing the filler phrase `"수고하셨습니다"` inside longer text is
rejected. -/
theorem C5_is_hallucination_iff :
    (∀ text : Str, is_hallucination text = true ↔ hallucinationSpec text)
    ∧ is_hallucination (List.replicate 20 '.') = true
    ∧ is_hallucination "오늘도 수고하셨습니다 여러분".data = true := by
  refine ⟨fun text => ?_, by decide, by decide⟩
  unfold is_hallucination hallucinationSpec
  by_cases hA : (pyStrip text).length = 0
  · rw [if_pos hA]
    simp only [true_iff]
    exact Or.inl ((pyStrip_eq_nil_iff text).1 (List.length_eq_zero.1 hA))
  · rw [if_neg hA]
    have hA' : ¬ ∀ c ∈ text, pySpace c = true := by
      intro h
      exact hA (by rw [(pyStrip_eq_nil_iff text).2 h]; rfl)
    by_cases hB : text.length > 10 && text.dedup.length < 5
    · rw [if_pos hB]
      simp only [Bool.and_eq_true, decide_eq_true_eq] at hB
      simp [hB]
    · rw [if_neg hB]
      simp only [Bool.and_eq_true, decide_eq_true_eq, not_and_or, not_lt] at hB
      rw [List.any_eq_true]
      constructor
      · intro ⟨p, hp, hc⟩
        exact Or.inr (Or.inr ⟨p, hp, hc⟩)
      · rintro (h | h | ⟨p, hp, hc⟩)
        · exact absurd h hA'
        · omega
        · exact ⟨p, hp, hc⟩

/-! ## Claim C1: rejected segments and the recorder -/

lemma recStep_rejected (dur : ℚ) (st : RecState) (s : Segment)
    (h : is_hallucination s.text = true) : recStep dur st s = st := by
  unfold recStep; rw [if_pos h]

lemma recStep_count (dur : ℚ) (st : RecState) (s : Segment)
    (h : is_hallucination s.text = false) :
    (recStep dur st s).segmentCount = st.segmentCount + 1 := by
  unfold recStep
  rw [if_neg (by simp [h])]
  dsimp only
  split <;> split <;> rfl

lemma recStep_timeRows_len (dur : ℚ) (st : RecState) (s : Segment)
    (h : is_hallucination s.text = false) :
    (recStep dur st s).timeRows.length = st.timeRows.length + 1 := by
  unfold recStep
  rw [if_neg (by simp [h])]
  dsimp only
  split <;> split <;> simp

lemma foldl_recStep_filter (dur : ℚ) :
    ∀ (segs : List Segment) (st : RecState),
      segs.foldl (recStep dur) st
        = (segs.filter fun s => !is_hallucination s.text).foldl (recStep dur) st
  | [], _ => rfl
  | s :: t, st => by
    by_cases h : is_hallucination s.text
    · rw [List.foldl_cons, recStep_rejected dur st s h, List.filter_cons]
      simp only [h, Bool.not_true, if_false]
      exact foldl_recStep_filter dur t st
    · rw [List.foldl_cons, List.filter_cons]
      simp only [eq_false_of_ne_true h, Bool.not_false, if_true, List.foldl_cons]
      exact foldl_recStep_filter dur t (recStep dur st s)

lemma foldl_recStep_count (dur : ℚ) :
    ∀ (segs : List Segment) (st : RecState),
      (segs.foldl (recStep dur) st).segmentCount
        = st.segmentCount + (segs.filter fun s => !is_hallucination s.text).length
  | [], _ => by simp
  | s :: t, st => by
    by_cases h : is_hallucination s.text
    · rw [List.foldl_cons, recStep_rejected dur st s h, List.filter_cons]
      simp only [h, Bool.not_true, if_false]
      exact foldl_recStep_count dur t st
    · rw [List.foldl_cons, List.filter_cons]
      simp only [eq_false_of_ne_true h, Bool.not_false, if_true, List.length_cons]
      rw [foldl_recStep_count dur t (recStep dur st s),
        recStep_count dur st s (eq_false_of_ne_true h)]
      omega

lemma foldl_recStep_timeRows (dur : ℚ) :
    ∀ (segs : List Segment) (st : RecState),
      (segs.foldl (recStep dur) st).timeRows.length
        = st.timeRows.length + (segs.filter fun s => !is_hallucination s.text).length
  | [], _ => by simp
  | s :: t, st => by
    by_cases h : is_hallucination s.text
    · rw [List.foldl_cons, recStep_rejected dur st s h, List.filter_cons]
      simp only [h, Bool.not_true, if_false]
      exact foldl_recStep_timeRows dur t st
    · rw [List.foldl_cons, List.filter_cons]
      simp only [eq_false_of_ne_true h, Bool.not_false, if_true, List.length_cons]
      rw [foldl_recStep_timeRows dur t (recStep dur st s),
        recStep_timeRows_len dur st s (eq_false_of_ne_true h)]
      omega

/-- The session of claim C1's counterexample: one segment, rejected by the
filter, ending at audio position 950 of a 1000-second file. -/
def c1Segs : List Segment := [⟨0, 950, "....................".data⟩]

/-- **C1, counterexample.**  In a session whose only segment is rejected by
the filter (20 repeated dots, end = 950 s, total duration 1000 s), the code
writes nothing at all: no sink rows, no count, and — against the claim — no
progress/milestone bookkeeping either.  Had the estimator used the rejected
segment's `end` as the current audio position, as the claim states, the
floor of the progress percentage would be 95 and all nine milestones would
have been logged (this is exactly what the spec-modelled recorder
`runRecorderClaimed` produces); the code logs none. -/
theorem C1_counterexample :
    is_hallucination "....................".data = true
    ∧ runRecorder c1Segs 1000 = initRecState
    ∧ (runRecorder c1Segs 1000).logRows = []
    ∧ (runRecorderClaimed c1Segs 1000).logRows
        = [(10, 950), (20, 950), (30, 950), (40, 950), (50, 950),
           (60, 950), (70, 950), (80, 950), (90, 950)]
    ∧ runRecorder c1Segs 1000 ≠ runRecorderClaimed c1Segs 1000 := by
  have hh : is_hallucination "....................".data = true := by decide
  have h1 : runRecorder c1Segs 1000 = initRecState := by
    simp [runRecorder, c1Segs, recStep, hh]
  have hp : pyIntQ ((950:ℚ) / 1000 * 100) = 95 := by
    unfold pyIntQ
    rw [if_pos (by norm_num)]
    norm_num
  have h2 : (runRecorderClaimed c1Segs 1000).logRows
      = [(10, 950), (20, 950), (30, 950), (40, 950), (50, 950),
         (60, 950), (70, 950), (80, 950), (90, 950)] := by
    simp only [runRecorderClaimed, c1Segs, List.foldl_cons, List.foldl_nil, recStepClaimed]
    rw [if_pos (show (0:ℚ) < 1000 by norm_num)]
    simp only [hp, hh, milestonesList, initRecState, List.foldl_cons, List.foldl_nil, msStep]
    norm_num
  refine ⟨hh, h1, by rw [h1]; rfl, h2, fun he => ?_⟩
  rw [h1] at he
  rw [← he] at h2
  simp [initRecState] at h2

/-- **C1, amended.**  A segment rejected by the real-time filter contributes
nothing whatsoever to the session: the recorder state is the same as if the
rejected segments had never been produced (so they are written to no sink
and do not increment `segmentCount`), and — contrary to the claim's final
part — they do not advance the progress estimator either: progress, ETA and
milestone computations happen only at accepted segments and use the
accepted segments' `end` positions. -/
theorem C1_amended (segs : List Segment) (dur : ℚ) :
    runRecorder segs dur = runRecorder (segs.filter fun s => !is_hallucination s.text) dur
    ∧ (runRecorder segs dur).segmentCount
        = (segs.filter fun s => !is_hallucination s.text).length
    ∧ (runRecorder segs dur).timeRows.length
        = (segs.filter fun s => !is_hallucination s.text).length := by
  refine ⟨?_, ?_, ?_⟩
  · rw [runRecorder, runRecorder, foldl_recStep_filter]
  · rw [runRecorder, foldl_recStep_count]
    simp [initRecState]
  · rw [runRecorder, foldl_recStep_timeRows]
    simp [initRecState]

/-! ## Claim C4: idempotence of the offline cleaner -/

/-- The entries of claim C4's counterexample: two near-duplicate entries, a
single-dot entry (dropped by the hallucination heuristic), and a third
near-duplicate.  No run of length 3 exists in the input, but after the dot
entry is dropped the three surviving duplicates become adjacent. -/
def c4Entries : List Entry :=
  [⟨"00:00".data, "hello there".data, []⟩, ⟨"00:01".data, "hello there".data, []⟩,
   ⟨"00:02".data, ".".data, []⟩, ⟨"00:03".data, "hello there".data, []⟩]

/-- **C4, counterexample.**  The offline cleaning pass is not idempotent:
on `c4Entries` the first pass removes one entry (the dot), leaving three
consecutive identical entries, and a second pass then collapses that run,
removing two more. -/
theorem C4_counterexample :
    (clean_entries c4Entries).length = 3
    ∧ (clean_entries (clean_entries c4Entries)).length = 1
    ∧ clean_entries (clean_entries c4Entries) ≠ clean_entries c4Entries := by decide

/-- **C4, amended.**  Each cleaning pass only ever removes entries — the
output is never longer than the input — but full idempotence fails: a
second application can remove further entries when first-pass drops make
surviving near-duplicates adjacent. -/
theorem C4_amended (entries : List Entry) :
    (clean_entries entries).length ≤ entries.length := by
  unfold clean_entries
  by_cases h : entries.isEmpty
  · rw [if_pos h]
  · rw [if_neg h]
    calc (entries.enum.filterMap _).length ≤ entries.enum.length :=
          List.length_filterMap_le _ _
      _ = entries.length := List.enum_length

/-! ## Claim C8: timestamps preserved, file structure -/

lemma filterMap_enumFrom_time_sublist (f : ℕ × Entry → Option Entry)
    (hf : ∀ i e r, f (i, e) = some r → r.time = e.time) :
    ∀ (es : List Entry) (n : ℕ),
      (((es.enumFrom n).filterMap f).map (fun e => e.time)).Sublist
        (es.map (fun e => e.time))
  | [], _ => by simp
  | e :: t, n => by
    rw [List.enumFrom_cons, List.filterMap_cons, List.map_cons]
    cases h : f (n, e) with
    | none => exact (filterMap_enumFrom_time_sublist f hf t (n+1)).cons _
    | some r =>
      rw [List.map_cons, hf n e r h]
      exact (filterMap_enumFrom_time_sublist f hf t (n+1)).cons₂ _

/-- **C8.**  Every entry surviving the offline cleaner keeps exactly the
timestamp it was parsed with, in the original relative order (the list of
surviving timestamps is a sublist of the original timestamp list), and the
rewritten file is exactly the original header lines unchanged followed by
one `| time | content |` row per surviving entry in order. -/
theorem C8_timestamps_and_file (es : List Entry) (header : List Str)
    (fs : FileSys) (path : Str) (b : Bool) :
    ((clean_entries es).map (fun e => e.time)).Sublist (es.map (fun e => e.time))
    ∧ fsRead (write_cleaned_file fs path header (clean_entries es) b) path
        = some (cleanedFileText header (clean_entries es))
    ∧ cleanedFileText header (clean_entries es)
        = header.flatten ++ ((clean_entries es).map rowText).flatten := by
  refine ⟨?_, ?_, rfl⟩
  · unfold clean_entries
    split
    · exact List.Sublist.refl _
    · have henum : es.enum = es.enumFrom 0 := rfl
      rw [henum]
      apply filterMap_enumFrom_time_sublist
      intro i e r hr
      dsimp only at hr
      split at hr
      · exact absurd hr (by simp)
      · split at hr
        · exact absurd hr (by simp)
        · split at hr
          · exact absurd hr (by simp)
          · injection hr with hr'
            rw [← hr']
  · unfold write_cleaned_file
    simp [fsRead, fsWrite, List.find?_cons]

/-! ## Claim C9: backup before rewrite -/

lemma pyReplaceF_length_ge (pat rep : Str) (hlen : pat.length ≤ rep.length) :
    ∀ (fuel : ℕ) (s : Str), s.length ≤ (pyReplaceF pat rep fuel s).length
  | 0, _ => le_refl _
  | fuel+1, s => by
    unfold pyReplaceF
    split
    · rename_i h
      rw [Bool.and_eq_true] at h
      have hpre : pat.length ≤ s.length :=
        (List.isPrefixOf_iff_prefix.1 h.1).length_le
      have hrec := pyReplaceF_length_ge pat rep hlen fuel (s.drop pat.length)
      rw [List.length_drop] at hrec
      simp only [List.length_append]
      omega
    · match s with
      | [] => exact le_refl _
      | c :: t =>
        have hrec := pyReplaceF_length_ge pat rep hlen fuel t
        simpa using hrec

lemma pyReplaceF_length_lt (pat rep : Str) (hlt : pat.length < rep.length)
    (hne : pat ≠ []) :
    ∀ (fuel : ℕ) (s : Str), s.length < fuel → strContains s pat = true →
      s.length < (pyReplaceF pat rep fuel s).length
  | 0, s, hf, _ => absurd hf (by omega)
  | fuel+1, s, hf, hc => by
    unfold pyReplaceF
    split
    · rename_i h
      rw [Bool.and_eq_true] at h
      have hpre : pat.length ≤ s.length :=
        (List.isPrefixOf_iff_prefix.1 h.1).length_le
      have hrec := pyReplaceF_length_ge pat rep (le_of_lt hlt) fuel (s.drop pat.length)
      rw [List.length_drop] at hrec
      simp only [List.length_append]
      omega
    · rename_i h
      rw [Bool.and_eq_true, not_and_or] at h
      match s with
      | [] =>
        rw [strContains] at hc
        rcases h with h1 | h2
        · exact absurd hc (by simpa [List.isEmpty_iff] using hne)
        · exact absurd (by simpa [List.isEmpty_iff] using hne : ¬ pat.isEmpty = true)
            (by simpa using h2)
      | c :: t =>
        rw [strContains, Bool.or_eq_true] at hc
        have hcp : strContains t pat = true := by
          rcases hc with hc1 | hc2
          · rcases h with h1 | h2
            · exact absurd hc1 (by simpa using h1)
            · exact absurd (by simpa [List.isEmpty_iff] using hne : ¬ pat.isEmpty = true)
                (by simpa using h2)
          · exact hc2
        have hrec := pyReplaceF_length_lt pat rep hlt hne fuel t (by simpa using hf) hcp
        simpa using hrec

/-- A path containing `.md` maps to a strictly longer backup path, hence a
different one. -/
lemma backupPath_ne (p : Str) (h : strContains p ".md".data = true) :
    backupPath p ≠ p := by
  intro he
  have hlt := pyReplaceF_length_lt ".md".data ".backup.md".data (by decide) (by decide)
    (p.length + 1) p (by omega) h
  rw [show pyReplaceF ".md".data ".backup.md".data (p.length + 1) p = backupPath p from rfl,
    he] at hlt
  omega

/-- **C9, amended.**  Whenever the input path contains `.md` (as every
recorder-produced `*_time.md` file does) and the file exists, the cleaner's
rewrite with backup enabled produces a backup file — at a path distinct from
the input — whose content equals the original file's full pre-rewrite
content, while the input file receives the rewritten table; the rewrite is
therefore reversible.  (For a path with no occurrence of `.md` the derived
backup path aliases the input path and the guarantee fails, see the
counterexample.) -/
theorem C9_amended (fs : FileSys) (path : Str) (header : List Str)
    (cleaned : List Entry) (orig : Str)
    (hmd : strContains path ".md".data = true)
    (hread : fsRead fs path = some orig) :
    fsRead (write_cleaned_file fs path header cleaned true) (backupPath path) = some orig
    ∧ fsRead (write_cleaned_file fs path header cleaned true) path
        = some (cleanedFileText header cleaned)
    ∧ backupPath path ≠ path := by
  have hne := backupPath_ne path hmd
  have hbeq1 : (path == backupPath path) = false := by
    rw [beq_eq_false_iff_ne]
    exact fun he => hne he.symm
  have hbeq2 : (backupPath path == path) = false := by
    rw [beq_eq_false_iff_ne]
    exact hne
  refine ⟨?_, ?_, hne⟩
  · unfold write_cleaned_file
    simp only [if_pos rfl, fsRead, fsWrite, List.find?_cons, hbeq1, hbeq2, beq_self_eq_true]
    simp only [fsRead] at hread
    simp [hread]
  · unfold write_cleaned_file
    simp [fsRead, fsWrite]

/-- Witness for C9 at a concrete file system: one file `a_time.md` holding
`OLD`, rewritten with one surviving entry. -/
theorem C9_amended_witness :
    fsRead (write_cleaned_file [("a_time.md".data, "OLD".data)] "a_time.md".data
        ["# h\n".data] [⟨"00:01".data, "abcdefgh".data, []⟩] true)
      (backupPath "a_time.md".data) = some "OLD".data
    ∧ backupPath "a_time.md".data ≠ "a_time.md".data := by
  have h := C9_amended [("a_time.md".data, "OLD".data)] "a_time.md".data
    ["# h\n".data] [⟨"00:01".data, "abcdefgh".data, []⟩] "OLD".data (by decide) (by decide)
  exact ⟨h.1, h.2.2⟩

/-- The file system of C9's counterexample: the input path has no `.md`
occurrence, so `str(file_path).replace('.md', '.backup.md')` leaves it
unchanged and the "backup" aliases the input file. -/
def c9fs : FileSys := [("transcript.txt".data, "ORIGINAL".data)]

def c9out : FileSys :=
  write_cleaned_file c9fs "transcript.txt".data ["# h\n".data]
    [⟨"00:01".data, "abcdefgh".data, []⟩] true

/-- **C9, counterexample.**  For the input path `transcript.txt` (accepted
by the cleaner's CLI, which never checks the extension), the derived backup
path equals the input path: opening the "backup" for writing truncates the
original before it is read back, so the written backup content is empty,
the input file is then rewritten, and no file in the resulting file system
contains the original content — the rewrite happened with backup enabled
yet no backup holding the original content was ever completely written,
and the rewrite is irreversible. -/
theorem C9_counterexample :
    backupPath "transcript.txt".data = "transcript.txt".data
    ∧ fsRead c9out "transcript.txt".data
        = some (cleanedFileText ["# h\n".data] [⟨"00:01".data, "abcdefgh".data, []⟩])
    ∧ (c9out.map (fun pc => fsRead c9out pc.1)).all
        (fun r => r ≠ some "ORIGINAL".data) = true := by decide

/-! ## Claim C10: zero removals mean no write at all -/

/-- **C10.**  When the parsed file has entries and the cleaning pass removes
none of them, `main` performs no file write: the resulting file system is
exactly the input file system (byte-for-byte unchanged input file, no backup
file created), and the exit status is 0. -/
theorem C10_no_write (fs : FileSys) (path : Str) (nb : Bool) (content : Str)
    (hread : fsRead fs path = some content)
    (hne : (parse_time_md_file content).2 ≠ [])
    (hlen : (clean_entries (parse_time_md_file content).2).length
        = (parse_time_md_file content).2.length) :
    mainModel fs path nb = (0, fs) := by
  unfold mainModel
  rw [hread]
  simp only
  rw [if_neg (by simpa [List.isEmpty_iff] using hne)]
  rw [if_neg (by omega)]

/-- Witness for C10: a two-line table file whose single entry survives
cleaning unchanged; `main` exits 0 and leaves the file system untouched. -/
theorem C10_no_write_witness :
    mainModel [("f_time.md".data, "|---|---|\n| 00:01 | abcdefgh |\n".data)]
        "f_time.md".data false
      = (0, [("f_time.md".data, "|---|---|\n| 00:01 | abcdefgh |\n".data)]) := by
  exact C10_no_write _ _ _ "|---|---|\n| 00:01 | abcdefgh |\n".data
    (by decide) (by decide) (by decide)

/-! ## Claim C2: where the heuristic drop predicate is evaluated -/

/-- Modelled from the spec (for comparison with the source behaviour): the
cleaner as claim C2 describes it, with the heuristic drop predicate
evaluated on each entry's content *after* the short-pattern collapse and
the word-repeat collapse. -/
def cleanEntriesSpecOrder (entries : List Entry) : List Entry :=
  if entries.isEmpty then entries
  else
    let contents := entries.map (·.content)
    let skip := skipIdx (detect_repeated_content contents 3)
    let short_patterns := detect_short_repeats (joinSpace contents) 5
    entries.enum.filterMap fun ie =>
      if ie.1 ∈ skip then none
      else
        let c2 := clean_repeated_words (applyShortPats short_patterns ie.2.content)
        if is_likely_hallucination c2 then none
        else if (pyStrip c2).length < 3 then none
        else some ⟨ie.2.time, c2, ie.2.original_line⟩

/-- The entry of claim C2's counterexample: its original content
`"ababababababhello world"` matches the 1-3-characters-repeated pattern and
is dropped by the source code, while its content after the short-pattern and
word-repeat collapses, `"abhello world"`, satisfies none of the drop rules
and would survive under the claim's evaluation order. -/
def c2Entries : List Entry := [⟨"00:00".data, "ababababababhello world".data, []⟩]

/-- **C2, counterexample.**  The source evaluates
`is_likely_hallucination` on the entry's content *before* the collapse
steps, not after: on `c2Entries` the code drops the entry, while the
pipeline described by the claim keeps it with the collapsed content. -/
theorem C2_counterexample :
    clean_entries c2Entries = []
    ∧ cleanEntriesSpecOrder c2Entries = [⟨"00:00".data, "abhello world".data, []⟩]
    ∧ is_likely_hallucination "ababababababhello world".data = true
    ∧ is_likely_hallucination "abhello world".data = false
    ∧ clean_entries c2Entries ≠ cleanEntriesSpecOrder c2Entries := by decide

/-- The cleaner as a staged pipeline in the source's actual order: run
collapse, then the heuristic drop on the *original* (pre-collapse) content,
then the short-pattern collapse and the word-repeat collapse, then the
length floor. -/
def cleanEntriesStaged (entries : List Entry) : List Entry :=
  if entries.isEmpty then entries
  else
    let contents := entries.map (·.content)
    let skip := skipIdx (detect_repeated_content contents 3)
    let short_patterns := detect_short_repeats (joinSpace contents) 5
    let stage1 := (entries.enum.filter fun ie => decide (ie.1 ∉ skip)).map (fun ie => ie.2)
    let stage2 := stage1.filter fun e => !is_likely_hallucination e.content
    let stage3 := stage2.map fun e =>
      (⟨e.time, clean_repeated_words (applyShortPats short_patterns e.content),
        e.original_line⟩ : Entry)
    stage3.filter fun e => !decide ((pyStrip e.content).length < 3)

lemma stagedEq (skip : List ℕ) (pats : List Str) :
    ∀ (l : List (ℕ × Entry)),
      (l.filterMap fun ie =>
        if ie.1 ∈ skip then none
        else
          if is_likely_hallucination ie.2.content then none
          else
            let c2 := clean_repeated_words (applyShortPats pats ie.2.content)
            if (pyStrip c2).length < 3 then none
            else some ⟨ie.2.time, c2, ie.2.original_line⟩)
      = ((((l.filter fun ie => decide (ie.1 ∉ skip)).map (fun ie => ie.2)).filter
            (fun e => !is_likely_hallucination e.content)).map
            (fun e => (⟨e.time, clean_repeated_words (applyShortPats pats e.content),
              e.original_line⟩ : Entry))).filter
          (fun e => !decide ((pyStrip e.content).length < 3))
  | [] => rfl
  | ie :: rest => by
    have IH := stagedEq skip pats rest
    by_cases h1 : ie.1 ∈ skip
    · simp [List.filterMap_cons, List.filter_cons, h1, IH]
    · by_cases h2 : is_likely_hallucination ie.2.content
      · simp [List.filterMap_cons, List.filter_cons, h1, h2, IH]
      · by_cases h3 :
          (pyStrip (clean_repeated_words (applyShortPats pats ie.2.content))).length < 3
        · simp [List.filterMap_cons, List.filter_cons, h1, h2, h3, IH]
        · simp [List.filterMap_cons, List.filter_cons, h1, h2, h3, IH]

/-- **C2, amended.**  In the offline cleaner, the heuristic drop predicate
(content length < 2; length > 10 with one character making up more than 80%
of all characters; a 1-3 character unit repeated at the start; purely
phonetic-alphabet filler; one ASCII letter repeated at the start) is
evaluated on each entry's *original* content — after the run collapse but
*before* the short-pattern collapse and the word-repeat collapse — and
every entry satisfying the predicate there is dropped from the output: the
cleaner equals the staged pipeline run-collapse → heuristic-drop →
short-pattern collapse → word-repeat collapse → length floor. -/
theorem C2_amended (entries : List Entry) :
    clean_entries entries = cleanEntriesStaged entries := by
  rcases entries with _ | ⟨e, t⟩
  · rfl
  · rw [clean_entries, cleanEntriesStaged]
    simp only [List.isEmpty_cons, Bool.false_eq_true, if_false]
    exact stagedEq _ _ _

/-! ## Claim C3: the run collapse -/

/-- The run-collapse stage of `clean_entries` in isolation
(fix_hallucination.py lines 204-205 and 221-231): keep exactly the entries
whose index is not in the skip set derived from
`detect_repeated_content`. -/
def runCollapse (entries : List Entry) : List Entry :=
  let skip := skipIdx (detect_repeated_content (entries.map (fun e => e.content)) 3)
  (entries.enum.filter fun ie => decide (ie.1 ∉ skip)).map (fun ie => ie.2)

/-- The kept indices of the run collapse as a direct greedy left-to-right
scan (the amended description of claim C3): at each position, if the
stripped content is empty or shorter than 5 characters the entry is kept
and the scan moves on; otherwise the maximal run of following entries that
are identical to, or Jaccard-similar (> 0.8) to, this representative is
measured, and if the run (including the representative) has length at least
3 the representative alone is kept and the scan resumes after the run. -/
def greedyKeptAux (lines : List Str) : ℕ → ℕ → List ℕ
  | 0, _ => []
  | fuel+1, i =>
    if i < lines.length then
      let cur := pyStrip (lines.getD i [])
      if cur.isEmpty || cur.length < 5 then i :: greedyKeptAux lines fuel (i+1)
      else
        let cnt := 1 + runLen cur (lines.drop (i+1))
        if 3 ≤ cnt then i :: greedyKeptAux lines fuel (i + cnt)
        else i :: greedyKeptAux lines fuel (i+1)
    else []

lemma skipIdx_cons (a b : ℕ) (c : Str) (rest : List (ℕ × ℕ × Str)) :
    skipIdx ((a, b, c) :: rest) = List.range' (a+1) (b - a) ++ skipIdx rest := rfl

lemma skipIdx_detectAux_lt (lines : List Str) (thr : ℕ) :
    ∀ (fuel i k : ℕ), k ∈ skipIdx (detectAux lines thr fuel i) → i < k
  | 0, i, k, h => by simp [detectAux, skipIdx] at h
  | fuel+1, i, k, h => by
    rw [detectAux] at h
    by_cases hi : i < lines.length
    · rw [if_pos hi] at h
      by_cases hv : (pyStrip (lines.getD i [])).isEmpty
          || decide ((pyStrip (lines.getD i [])).length < 5)
      · rw [if_pos hv] at h
        have := skipIdx_detectAux_lt lines thr fuel (i+1) k h
        omega
      · rw [if_neg hv] at h
        dsimp only at h
        by_cases hc : thr ≤ 1 + runLen (pyStrip (lines.getD i [])) (lines.drop (i+1))
        · rw [if_pos hc, skipIdx_cons] at h
          rcases List.mem_append.1 h with h1 | h2
          · have := (List.mem_range'_1.1 h1).1
            omega
          · have := skipIdx_detectAux_lt lines thr fuel
              (i + (1 + runLen (pyStrip (lines.getD i [])) (lines.drop (i+1)))) k h2
            omega
        · rw [if_neg hc] at h
          have := skipIdx_detectAux_lt lines thr fuel (i+1) k h
          omega
    · rw [if_neg hi] at h
      simp [skipIdx] at h

lemma range'_split_head (i m n : ℕ) :
    List.range' i (1 + (m + n)) = i :: (List.range' (i+1) m ++ List.range' (i+1+m) n) := by
  rw [Nat.add_comm 1 (m + n), List.range'_succ, Nat.add_comm m n]
  exact congrArg (i :: ·) (List.range'_append_1 (i+1) m n).symm

/-- The indices surviving `detect_repeated_content`'s skip set are exactly
those produced by the greedy scan `greedyKeptAux`. -/
lemma keptEq (lines : List Str) :
    ∀ (fuel i : ℕ), lines.length - i ≤ fuel →
      (List.range' i (lines.length - i)).filter
          (fun k => decide (k ∉ skipIdx (detectAux lines 3 fuel i)))
        = greedyKeptAux lines fuel i
  | 0, i, hf => by
    have : lines.length - i = 0 := by omega
    rw [this]
    rfl
  | fuel+1, i, hf => by
    rw [detectAux, greedyKeptAux]
    by_cases hi : i < lines.length
    · rw [if_pos hi, if_pos hi]
      have hsplit : lines.length - i = (lines.length - (i+1)) + 1 := by omega
      by_cases hv : (pyStrip (lines.getD i [])).isEmpty
          || decide ((pyStrip (lines.getD i [])).length < 5)
      · rw [if_pos hv, if_pos hv, hsplit, List.range'_succ, List.filter_cons]
        rw [if_pos (by
          simp only [decide_eq_true_eq]
          intro hmem
          have := skipIdx_detectAux_lt lines 3 fuel (i+1) i hmem
          omega)]
        rw [keptEq lines fuel (i+1) (by omega)]
      · rw [if_neg hv, if_neg hv]
        dsimp only
        set cnt := 1 + runLen (pyStrip (lines.getD i [])) (lines.drop (i+1)) with hcntdef
        have hcle : cnt ≤ lines.length - i := by
          have hrl : runLen (pyStrip (lines.getD i [])) (lines.drop (i+1))
              ≤ (lines.drop (i+1)).length := (List.takeWhile_sublist _).length_le
          rw [List.length_drop] at hrl
          omega
        by_cases hc : 3 ≤ cnt
        · rw [if_pos hc, if_pos hc, skipIdx_cons]
          have he1 : i + cnt - 1 - i = cnt - 1 := by omega
          rw [he1]
          have hsplit2 : lines.length - i = 1 + ((cnt - 1) + (lines.length - i - cnt)) := by
            omega
          rw [hsplit2, range'_split_head, List.filter_cons, List.filter_append]
          rw [if_pos (by
            simp only [decide_eq_true_eq, List.mem_append]
            rintro (hmem | hmem)
            · have := (List.mem_range'_1.1 hmem).1
              omega
            · have := skipIdx_detectAux_lt lines 3 fuel (i + cnt) i hmem
              omega)]
          have hmid : (List.range' (i+1) (cnt - 1)).filter
              (fun k => decide (k ∉ List.range' (i+1) (cnt - 1)
                ++ skipIdx (detectAux lines 3 fuel (i + cnt)))) = [] := by
            rw [List.filter_eq_nil_iff]
            intro k hk
            simp only [decide_eq_true_eq, List.mem_append, not_or, not_not]
            intro hcon
            exact hcon.1 hk
          rw [hmid]
          have he2 : i + 1 + (cnt - 1) = i + cnt := by omega
          rw [he2]
          have htail : (List.range' (i + cnt) (lines.length - i - cnt)).filter
              (fun k => decide (k ∉ List.range' (i+1) (cnt - 1)
                ++ skipIdx (detectAux lines 3 fuel (i + cnt))))
              = (List.range' (i + cnt) (lines.length - (i + cnt))).filter
              (fun k => decide (k ∉ skipIdx (detectAux lines 3 fuel (i + cnt)))) := by
            have he3 : lines.length - i - cnt = lines.length - (i + cnt) := by omega
            rw [he3]
            apply List.filter_congr
            intro k hk
            have hk1 := (List.mem_range'_1.1 hk).1
            simp only [decide_eq_decide, List.mem_append, not_or]
            constructor
            · exact fun hp => hp.2
            · intro hp
              refine ⟨fun hr => ?_, hp⟩
              have := (List.mem_range'_1.1 hr).2
              omega
          rw [htail, keptEq lines fuel (i + cnt) (by omega)]
          rfl
        · rw [if_neg hc, if_neg hc, hsplit, List.range'_succ, List.filter_cons]
          rw [if_pos (by
            simp only [decide_eq_true_eq]
            intro hmem
            have := skipIdx_detectAux_lt lines 3 fuel (i+1) i hmem
            omega)]
          rw [keptEq lines fuel (i+1) (by omega)]
    · rw [if_neg hi, if_neg hi]
      have : lines.length - i = 0 := by omega
      rw [this]
      rfl

lemma mem_greedyKept_iff (lines : List Str) (i : ℕ) (hi : i < lines.length) :
    i ∈ greedyKeptAux lines lines.length 0
      ↔ i ∉ skipIdx (detect_repeated_content lines 3) := by
  rw [detect_repeated_content, ← keptEq lines lines.length 0 (by omega)]
  rw [List.mem_filter]
  simp only [Nat.sub_zero, decide_eq_true_eq]
  constructor
  · exact fun h => h.2
  · intro h
    exact ⟨List.mem_range'_1.2 ⟨by omega, by omega⟩, h⟩

/-- Modelled from the spec (for comparison with the source behaviour): the
run collapse exactly as claim C3 states it — a greedy left-to-right scan in
which *every* entry can open a run (no condition on the representative's
length), a run extends while the content is character-identical to the
representative or Jaccard-similar above 0.8, and maximal runs of length at
least 3 are collapsed to their first entry. -/
def claimKeptAux (lines : List Str) : ℕ → ℕ → List ℕ
  | 0, _ => []
  | fuel+1, i =>
    if i < lines.length then
      let cur := lines.getD i []
      let cnt := 1 + ((lines.drop (i+1)).takeWhile (fun l =>
        l == cur || decide (similarity cur l > mkRat 4 5))).length
      if 3 ≤ cnt then i :: claimKeptAux lines fuel (i + cnt)
      else i :: claimKeptAux lines fuel (i+1)
    else []

/-- Modelled from the spec: the run collapse of claim C3 at the entry
level. -/
def claimRunCollapse (entries : List Entry) : List Entry :=
  let lines := entries.map (fun e => e.content)
  (entries.enum.filter fun ie =>
    decide (ie.1 ∈ claimKeptAux lines lines.length 0)).map (fun ie => ie.2)

/-- The entries of claim C3's counterexample: three consecutive entries
with identical 4-character content followed by a different entry. -/
def c3Entries : List Entry :=
  [⟨"00:00".data, "abcd".data, []⟩, ⟨"00:01".data, "abcd".data, []⟩,
   ⟨"00:02".data, "abcd".data, []⟩, ⟨"00:03".data, "hello there friend".data, []⟩]

/-- **C3, counterexample.**  Three consecutive entries with the identical
content `"abcd"` are *not* collapsed by the source's run collapse, because
`detect_repeated_content` skips any potential representative whose stripped
content is shorter than 5 characters; the claim's described collapse (no
such length condition) would keep only the first of them. -/
theorem C3_counterexample :
    runCollapse c3Entries = c3Entries
    ∧ claimRunCollapse c3Entries
        = [⟨"00:00".data, "abcd".data, []⟩, ⟨"00:03".data, "hello there friend".data, []⟩]
    ∧ runCollapse c3Entries ≠ claimRunCollapse c3Entries := by decide

/-- The spec's own example: three consecutive entries with identical content
`"오퍼를 좋아해?"` (8 characters, so eligible) and a different fourth. -/
def c3Korean : List Entry :=
  [⟨"00:00".data, "오퍼를 좋아해?".data, []⟩, ⟨"00:01".data, "오퍼를 좋아해?".data, []⟩,
   ⟨"00:02".data, "오퍼를 좋아해?".data, []⟩, ⟨"00:03".data, "그래서 어떻게 됐어?".data, []⟩]

/-- **C3, amended.**  The run collapse keeps exactly the indices produced by
the greedy left-to-right scan that collapses each maximal run of at least 3
consecutive entries identical or Jaccard-similar (> 0.8) to the run's
representative, *provided* the run's representative's stripped content is
nonempty and at least 5 characters long.  An entry whose stripped content is
shorter than 5 characters never *opens* a run (it never serves as
representative — first conjunct's scan moves on past it), but such an entry
is still dropped when it falls inside a run opened by an eligible
representative: for contents `aaaaa, aa, aa` the two 2-character entries
extend the run of the 5-character representative (Jaccard similarity 1) and
are dropped (third conjunct).  In particular three consecutive identical
8-character entries followed by a different fourth collapse to one copy
plus the unchanged fourth entry (second conjunct). -/
theorem C3_amended (entries : List Entry) :
    (runCollapse entries
      = (entries.enum.filter fun ie =>
          decide (ie.1 ∈ greedyKeptAux (entries.map (fun e => e.content))
            (entries.map (fun e => e.content)).length 0)).map (fun ie => ie.2))
    ∧ runCollapse c3Korean
        = [⟨"00:00".data, "오퍼를 좋아해?".data, []⟩,
           ⟨"00:03".data, "그래서 어떻게 됐어?".data, []⟩]
    ∧ runCollapse
        [⟨"00:00".data, "aaaaa".data, []⟩, ⟨"00:01".data, "aa".data, []⟩,
         ⟨"00:02".data, "aa".data, []⟩]
        = [⟨"00:00".data, "aaaaa".data, []⟩] := by
  refine ⟨?_, by decide, by decide⟩
  unfold runCollapse
  apply congrArg (List.map _)
  apply List.filter_congr
  intro ie hie
  have hlt : ie.1 < entries.length := by
    rcases List.mem_enum_iff_getElem?.1 hie with h
    have := List.getElem?_eq_some.1 h
    exact this.1
  have hlt' : ie.1 < (entries.map (fun e => e.content)).length := by
    rwa [List.length_map]
  rw [decide_eq_decide]
  exact (mem_greedyKept_iff _ _ hlt').symm

/-! ## Claim C6: milestone checkpoints fire exactly once -/

lemma contains_iff_mem_nat (l : List ℕ) (a : ℕ) : l.contains a = true ↔ a ∈ l :=
  List.elem_iff

/-- Effect of one pass of the milestone loop over an arbitrary milestone
list: a milestone ends up logged when it was already logged or is reached by
the current progress, and the appended checkpoint rows are exactly the newly
logged milestones. -/
lemma msFold_spec (p : ℤ) (e : ℚ) (m : ℕ) :
    ∀ (ms : List ℕ) (lg : List ℕ) (rows : List (ℕ × ℚ)),
      (m ∈ (ms.foldl (msStep p e) (lg, rows)).1 ↔ m ∈ lg ∨ (m ∈ ms ∧ (m:ℤ) ≤ p))
      ∧ (ms.foldl (msStep p e) (lg, rows)).2.filter (fun r => r.1 == m)
          = rows.filter (fun r => r.1 == m)
            ++ (if m ∈ ms ∧ (m:ℤ) ≤ p ∧ m ∉ lg then [(m, e)] else [])
  | [], lg, rows => by simp
  | m' :: ms, lg, rows => by
    rw [List.foldl_cons]
    by_cases hcond : ((m':ℤ) ≤ p) ∧ m' ∉ lg
    · have hstep : msStep p e (lg, rows) m' = (lg ++ [m'], rows ++ [(m', e)]) := by
        unfold msStep
        rw [if_pos]
        rw [Bool.and_eq_true, decide_eq_true_eq, Bool.not_eq_true']
        exact ⟨hcond.1, by
          rw [← Bool.not_eq_true, contains_iff_mem_nat]
          exact hcond.2⟩
      rw [hstep]
      have IH := msFold_spec p e m ms (lg ++ [m']) (rows ++ [(m', e)])
      refine ⟨?_, ?_⟩
      · rw [IH.1]
        simp only [List.mem_append, List.mem_singleton, List.mem_cons]
        by_cases hmm : m = m'
        · subst hmm
          have := hcond.1
          tauto
        · tauto
      · rw [IH.2, List.filter_append]
        by_cases hmm : m = m'
        · subst hmm
          simp only [List.filter_cons, List.filter_nil, beq_self_eq_true, if_pos]
          rw [if_neg (show ¬(m ∈ ms ∧ (m:ℤ) ≤ p ∧ m ∉ lg ++ [m]) by
            simp [List.mem_append])]
          rw [if_pos (show m ∈ m :: ms ∧ (m:ℤ) ≤ p ∧ m ∉ lg from
            ⟨List.mem_cons_self _ _, hcond.1, hcond.2⟩)]
          simp
        · have hbeq : (m' == m) = false := by
            rw [beq_eq_false_iff_ne]
            exact fun h => hmm h.symm
          simp only [List.filter_cons, List.filter_nil, hbeq, Bool.false_eq_true, if_false]
          have h1 : (m ∈ ms ∧ (m:ℤ) ≤ p ∧ m ∉ lg ++ [m'])
              ↔ (m ∈ m' :: ms ∧ (m:ℤ) ≤ p ∧ m ∉ lg) := by
            simp only [List.mem_append, List.mem_singleton, List.mem_cons]
            tauto
          rw [if_congr h1 rfl rfl]
          simp
    · have hstep : msStep p e (lg, rows) m' = (lg, rows) := by
        unfold msStep
        rw [if_neg]
        rw [Bool.and_eq_true, decide_eq_true_eq, Bool.not_eq_true']
        intro hcc
        exact hcond ⟨hcc.1, by
          rw [← contains_iff_mem_nat, hcc.2]
          simp⟩
      rw [hstep]
      have IH := msFold_spec p e m ms lg rows
      refine ⟨?_, ?_⟩
      · rw [IH.1]
        simp only [List.mem_cons]
        by_cases hmm : m = m'
        · subst hmm
          constructor
          · tauto
          · rintro (h | ⟨h1, h2⟩)
            · exact Or.inl h
            · by_cases hlg : m ∈ lg
              · exact Or.inl hlg
              · exact absurd ⟨h2, hlg⟩ hcond
        · tauto
      · rw [IH.2]
        by_cases hmm : m = m'
        · subst hmm
          have h1 : (m ∈ ms ∧ (m:ℤ) ≤ p ∧ m ∉ lg) ↔ (m ∈ m :: ms ∧ (m:ℤ) ≤ p ∧ m ∉ lg) := by
            simp only [List.mem_cons]
            constructor
            · tauto
            · rintro ⟨_, h2, h3⟩
              exact absurd ⟨h2, h3⟩ hcond
          rw [if_congr h1 rfl rfl]
        · have h1 : (m ∈ ms ∧ (m:ℤ) ≤ p ∧ m ∉ lg) ↔ (m ∈ m' :: ms ∧ (m:ℤ) ≤ p ∧ m ∉ lg) := by
            simp only [List.mem_cons]
            tauto
          rw [if_congr h1 rfl rfl]

lemma recStep_logged_rows (dur : ℚ) (st : RecState) (s : Segment)
    (h : is_hallucination s.text = false) (hdur : 0 < dur) :
    (recStep dur st s).logged
        = (milestonesList.foldl (msStep (pyIntQ (s.stop / dur * 100)) s.stop)
            (st.logged, st.logRows)).1
    ∧ (recStep dur st s).logRows
        = (milestonesList.foldl (msStep (pyIntQ (s.stop / dur * 100)) s.stop)
            (st.logged, st.logRows)).2 := by
  unfold recStep
  rw [if_neg (by simp [h])]
  dsimp only
  rw [if_pos hdur]
  split <;> exact ⟨rfl, rfl⟩

/-- Invariant of the recorder loop for one milestone `m`: after processing
any segment list from any state, `m` is logged exactly when it was already
logged or some accepted segment reaches it, and the checkpoint rows for `m`
gain exactly one row — carrying the `end` of the *first* accepted segment
whose progress floor reaches `m` — when `m` was not logged before. -/
lemma runFold_spec (dur : ℚ) (hdur : 0 < dur) (m : ℕ) (hm : m ∈ milestonesList) :
    ∀ (segs : List Segment) (st : RecState),
      (m ∈ (segs.foldl (recStep dur) st).logged
        ↔ m ∈ st.logged
          ∨ ∃ s ∈ segs.filter (fun s => !is_hallucination s.text),
              (m:ℤ) ≤ pyIntQ (s.stop / dur * 100))
      ∧ (segs.foldl (recStep dur) st).logRows.filter (fun r => r.1 == m)
          = st.logRows.filter (fun r => r.1 == m)
            ++ (if m ∈ st.logged then []
                else
                  match (segs.filter (fun s => !is_hallucination s.text)).find?
                      (fun s => decide ((m:ℤ) ≤ pyIntQ (s.stop / dur * 100))) with
                  | some s => [(m, s.stop)]
                  | none => [])
  | [], st => by simp
  | s :: t, st => by
    by_cases h : is_hallucination s.text
    · rw [List.foldl_cons, recStep_rejected dur st s h, List.filter_cons]
      simp only [h, Bool.not_true, Bool.false_eq_true, if_false]
      exact runFold_spec dur hdur m hm t st
    · have hfalse := eq_false_of_ne_true h
      rw [List.foldl_cons, List.filter_cons]
      simp only [hfalse, Bool.not_false, if_true]
      have hstep := recStep_logged_rows dur st s hfalse hdur
      have IH := runFold_spec dur hdur m hm t (recStep dur st s)
      have hms := msFold_spec (pyIntQ (s.stop / dur * 100)) s.stop m
        milestonesList st.logged st.logRows
      constructor
      · rw [IH.1, hstep.1, hms.1]
        constructor
        · rintro ((hlg | ⟨_, hp⟩) | ⟨x, hx, hpx⟩)
          · exact Or.inl hlg
          · exact Or.inr ⟨s, List.mem_cons_self _ _, hp⟩
          · exact Or.inr ⟨x, List.mem_cons_of_mem _ hx, hpx⟩
        · rintro (hlg | ⟨x, hx, hpx⟩)
          · exact Or.inl (Or.inl hlg)
          · rcases List.mem_cons.1 hx with rfl | hx'
            · exact Or.inl (Or.inr ⟨hm, hpx⟩)
            · exact Or.inr ⟨x, hx', hpx⟩
      · rw [IH.2, hstep.2, hms.2, hstep.1, List.append_assoc]
        by_cases hlg : m ∈ st.logged
        · rw [if_pos hlg]
          rw [if_neg (show ¬(m ∈ milestonesList ∧ (m:ℤ) ≤ pyIntQ (s.stop / dur * 100)
              ∧ m ∉ st.logged) from fun hc => hc.2.2 hlg)]
          rw [if_pos (hms.1.mpr (Or.inl hlg))]
          simp
        · rw [if_neg hlg]
          by_cases hp : (m:ℤ) ≤ pyIntQ (s.stop / dur * 100)
          · rw [if_pos (show m ∈ milestonesList ∧ (m:ℤ) ≤ pyIntQ (s.stop / dur * 100)
                ∧ m ∉ st.logged from ⟨hm, hp, hlg⟩)]
            rw [if_pos (hms.1.mpr (Or.inr ⟨hm, hp⟩))]
            rw [List.find?_cons_of_pos _ (by simpa using hp)]
            simp
          · rw [if_neg (show ¬(m ∈ milestonesList ∧ (m:ℤ) ≤ pyIntQ (s.stop / dur * 100)
                ∧ m ∉ st.logged) from fun hc => hp hc.2.1)]
            rw [if_neg (show ¬ m ∈ (milestonesList.foldl (msStep
                (pyIntQ (s.stop / dur * 100)) s.stop) (st.logged, st.logRows)).1 from
              fun hc => by
                rcases hms.1.mp hc with h1 | ⟨_, h2⟩
                · exact hlg h1
                · exact hp h2)]
            rw [List.find?_cons_of_neg _ (by simpa using hp)]
            simp

/-- **C6.**  In any session with known positive total duration, for each
milestone `m ∈ {10, ..., 90}` the run log's checkpoint rows for `m` are:
exactly one row, carrying the `end` position of the *first* accepted
segment whose floored progress percentage reaches `m`, when such a segment
exists; and no row otherwise.  In particular at most one row per milestone
is ever appended, and a milestone already in `loggedMilestones` is never
fired again. -/
theorem C6_milestones (segs : List Segment) (dur : ℚ) (m : ℕ)
    (hdur : 0 < dur) (hm : m ∈ milestonesList) :
    (runRecorder segs dur).logRows.filter (fun r => r.1 == m)
      = match (segs.filter (fun s => !is_hallucination s.text)).find?
            (fun s => decide ((m:ℤ) ≤ pyIntQ (s.stop / dur * 100))) with
        | some s => [(m, s.stop)]
        | none => [] := by
  have h := (runFold_spec dur hdur m hm segs initRecState).2
  rw [runRecorder, h]
  simp [initRecState]

/-- Witness for C6: one accepted segment ending at 30 s of a 100 s file
reaches milestone 10 (floor 30 ≥ 10), and the run log holds exactly the row
`(10, 30)` for that milestone. -/
theorem C6_milestones_witness :
    (0:ℚ) < 100 ∧ (10 : ℕ) ∈ milestonesList
    ∧ (runRecorder [⟨0, 30, "hello everyone this is".data⟩] 100).logRows.filter
        (fun r => r.1 == 10) = [(10, 30)] := by
  refine ⟨by norm_num, by decide, ?_⟩
  rw [C6_milestones [⟨0, 30, "hello everyone this is".data⟩] 100 10 (by norm_num) (by decide)]
  have hh : is_hallucination "hello everyone this is".data = false := by decide
  have hp30 : pyIntQ (30:ℚ) = 30 := by
    unfold pyIntQ
    rw [if_pos (by norm_num)]
    norm_num
  rw [List.filter_cons]
  simp only [hh, Bool.not_false, if_true, List.filter_nil]
  rw [List.find?_cons_of_pos _ (by norm_num [hp30])]
